import Mathlib

/-!
Shallow embedding of the chess rules engine in `src/chess/src/lib.rs`
(`ChessGame` and its move generation / legality pipeline), together with
theorems checking the natural-language specification against it.

Boards are 64-element lists in rank-major order (index 0 = a1), exactly as
the Rust `[ChessPiece; 64]`.  `usize` indices are modelled as `Nat`,
`isize` arithmetic as `Int`; `wrapping_add_signed` wraps modulo `2 ^ 64`.
Out-of-range `List.set`/`List.getD` are total where the Rust code would
panic; all concrete inputs below stay inside the board.
-/

set_option maxRecDepth 10000
set_option maxHeartbeats 1000000

/-- Mirrors Rust `enum ChessState { Normal, Check }`. -/
inductive ChessState where
  | Normal
  | Check
deriving DecidableEq, Repr

/-- Mirrors Rust `enum ChessColor { Wh, Bl }`. -/
inductive ChessColor where
  | Wh
  | Bl
deriving DecidableEq, Repr

/-- Rust `ChessColor::dir`: `1` for white, `-1` for black. -/
def ChessColor.dir (c : ChessColor) : Int :=
  match c with
  | .Wh => 1
  | .Bl => -1

/-- Rust `ChessColor::opposite`. -/
def ChessColor.opposite (c : ChessColor) : ChessColor :=
  match c with
  | .Wh => .Bl
  | .Bl => .Wh

/-- Mirrors Rust `enum ChessPiece` (the `None` variant is `none`). -/
inductive ChessPiece where
  | none
  | P (c : ChessColor)
  | R (c : ChessColor)
  | N (c : ChessColor)
  | B (c : ChessColor)
  | Q (c : ChessColor)
  | K (c : ChessColor)
deriving DecidableEq, Repr

/-- Rust `ChessPiece::color`. -/
def ChessPiece.color (p : ChessPiece) : Option ChessColor :=
  match p with
  | .P c => some c
  | .R c => some c
  | .N c => some c
  | .B c => some c
  | .Q c => some c
  | .K c => some c
  | .none => Option.none

/-- Rust `ChessPiece::str` (pawns render as the empty string). -/
def ChessPiece.str (p : ChessPiece) : String :=
  match p with
  | .P _ => ""
  | .R _ => "R"
  | .N _ => "N"
  | .B _ => "B"
  | .Q _ => "Q"
  | .K _ => "K"
  | .none => "_"

/-- Mirrors Rust `struct ChessMove`. -/
structure ChessMove where
  piece : ChessPiece
  origin : Nat
  target : Nat
  captures : ChessPiece
  promotes : ChessPiece
  en_passant : Bool
  castles : Bool
deriving DecidableEq, Repr

/-- Rust `ChessMove::to`. -/
def ChessMove.to (piece : ChessPiece) (origin target : Nat) : ChessMove :=
  { piece := piece, origin := origin, target := target,
    captures := .none, promotes := .none,
    en_passant := false, castles := false }

/-- Rust `ChessMove::captures`. -/
def ChessMove.mkCaptures (piece : ChessPiece) (origin target : Nat)
    (captures : ChessPiece) : ChessMove :=
  { piece := piece, origin := origin, target := target,
    captures := captures, promotes := .none,
    en_passant := false, castles := false }

/-- Rust `ChessPiece::to` helper. -/
def ChessPiece.to (p : ChessPiece) (origin target : Nat) : ChessMove :=
  ChessMove.to p origin target

/-- Mirrors Rust `struct ChessGame`.  The two-element per-color arrays
become pairs `(white, black)`. -/
structure ChessGame where
  board : List ChessPiece
  temp_board : List ChessPiece
  can_castle_k : Bool × Bool
  can_castle_q : Bool × Bool
  can_castle_now_k : Bool × Bool
  can_castle_now_q : Bool × Bool
  en_passant_loc : Option (Nat × Nat) × Option (Nat × Nat)
  next_moves : List ChessMove × List ChessMove
  state : ChessState
  turn : ChessColor
deriving DecidableEq, Repr

/-- Index a per-color pair the way Rust indexes `[T; 2]` by
`color as usize`. -/
def colIdx (c : ChessColor) (p : α × α) : α :=
  match c with
  | .Wh => p.1
  | .Bl => p.2

/-- Update a per-color pair at one color. -/
def setIdx (c : ChessColor) (v : α) (p : α × α) : α × α :=
  match c with
  | .Wh => (v, p.2)
  | .Bl => (p.1, v)

/-- `self.board[i]` (out of range reads give the empty square). -/
def boardGet (b : List ChessPiece) (i : Nat) : ChessPiece :=
  b.getD i .none

/-- Rust `usize::wrapping_add_signed`. -/
def wrapAddSigned (n : Nat) (d : Int) : Nat :=
  (((n : Int) + d) % (2 ^ 64 : Int)).toNat

/-- Rust `ChessGame::step`: color-relative one-step geometry. -/
def step (i : Nat) (dx dy : Int) (side : ChessColor) : Option Nat :=
  let rdy : Int := dy * side.dir
  let x : Int := ((i % 8 : Nat) : Int) + dx
  let y : Int := ((i / 8 : Nat) : Int) + rdy
  if 0 ≤ x ∧ x ≤ 7 ∧ 0 ≤ y ∧ y ≤ 7 then some (8 * y + x).toNat else Option.none

/-- Rust `ChessGame::step_real`: color-independent step geometry. -/
def stepReal (i : Nat) (dx dy : Int) : Option Nat :=
  let x : Int := ((i % 8 : Nat) : Int) + dx
  let y : Int := ((i / 8 : Nat) : Int) + dy
  if 0 ≤ x ∧ x ≤ 7 ∧ 0 ≤ y ∧ y ≤ 7 then some (8 * y + x).toNat else Option.none

/-- Rust `ChessGame::collides`. -/
def collides (g : ChessGame) (i : Nat) : Bool :=
  !(boardGet g.board i == .none)

/-- Rust `ChessGame::collides_opponent`. -/
def collidesOpponent (g : ChessGame) (i : Nat) (side : ChessColor) : Bool :=
  match (boardGet g.board i).color with
  | some col => col == side.opposite
  | Option.none => false

/-- Rust `ChessGame::mv_promotion`: expand a last-rank pawn move into its
four promotion variants. -/
def mvPromotion (mv : ChessMove) : List ChessMove :=
  match mv.piece.color with
  | Option.none => []
  | some col =>
    if 55 < mv.target ∨ mv.target < 8 then
      [{ mv with promotes := .R col }, { mv with promotes := .N col },
       { mv with promotes := .B col }, { mv with promotes := .Q col }]
    else [mv]

/-- Rust `ChessGame::mv_captures`. -/
def mvCaptures (g : ChessGame) (origin target : Nat) : ChessMove :=
  ChessMove.mkCaptures (boardGet g.board origin) origin target
    (boardGet g.board target)

/-- Rust `ChessGame::mv_en_passant`. -/
def mvEnPassant (g : ChessGame) (origin target : Nat) : ChessMove :=
  let piece := boardGet g.board origin
  { piece := piece, origin := origin, target := target,
    captures := (match piece.color with
      | some col => ChessPiece.P col.opposite
      | Option.none => ChessPiece.none),
    promotes := .none, en_passant := true, castles := false }

/-- Rust `ChessGame::mv_castle` (it never reads `self`). -/
def mvCastle (side : ChessColor) (queens : Bool) : ChessMove :=
  let king : Nat := if side == .Wh then 4 else 60
  { ChessMove.to (.K side) king (if queens then king - 2 else king + 2)
      with castles := true }

/-- Rust `ChessGame::pawn_moves`. -/
def pawnMoves (g : ChessGame) (i : Nat) (side : ChessColor) : List ChessMove :=
  let piece := boardGet g.board i
  let fwd : List ChessMove :=
    match step i 0 1 side with
    | some t =>
      if collides g t then []
      else
        mvPromotion (piece.to i t) ++
          (if (i < 16 && 7 < i) || (i < 56 && 47 < i) then
            match step i 0 2 side with
            | some t2 => if !(collides g t2) then [piece.to i t2] else []
            | Option.none => []
          else [])
    | Option.none => []
  let caps : List ChessMove :=
    [step i 1 1 side, step i (-1) 1 side].flatMap fun pos =>
      match pos with
      | some t =>
        if collidesOpponent g t side then mvPromotion (mvCaptures g i t) else []
      | Option.none => []
  let ep : List ChessMove :=
    [g.en_passant_loc.1, g.en_passant_loc.2].flatMap fun loc =>
      match loc with
      | some (origin, target) =>
        if i == origin then [mvEnPassant g origin target] else []
      | Option.none => []
  fwd ++ caps ++ ep

/-- One sliding ray.  The Rust loops read `for j in 1..7`, i.e. the offset
multiplier `j` only takes the values `1..=6`; the `fuel` argument counts the
remaining loop iterations (the callers pass `6`). -/
def rayMoves (g : ChessGame) (side : ChessColor) (i : Nat) (dx dy : Int)
    (j : Nat) : Nat → List ChessMove
  | 0 => []
  | fuel + 1 =>
    match stepReal i (dx * (j : Int)) (dy * (j : Int)) with
    | some t =>
      if collidesOpponent g t side then [mvCaptures g i t]
      else if !(collides g t) then
        (boardGet g.board i).to i t :: rayMoves g side i dx dy (j + 1) fuel
      else []
    | Option.none => []

/-- Rust `ChessGame::rook_moves`: four axis-aligned rays. -/
def rookMoves (g : ChessGame) (i : Nat) (side : ChessColor) : List ChessMove :=
  rayMoves g side i 0 1 1 6 ++ rayMoves g side i 1 0 1 6 ++
    rayMoves g side i 0 (-1) 1 6 ++ rayMoves g side i (-1) 0 1 6

/-- Rust `ChessGame::bishop_moves`: four diagonal rays. -/
def bishopMoves (g : ChessGame) (i : Nat) (side : ChessColor) : List ChessMove :=
  rayMoves g side i 1 1 1 6 ++ rayMoves g side i (-1) 1 1 6 ++
    rayMoves g side i 1 (-1) 1 6 ++ rayMoves g side i (-1) (-1) 1 6

/-- The common per-target body of the knight/king loops. -/
def hopMoves (g : ChessGame) (side : ChessColor) (i : Nat)
    (targets : List (Option Nat)) : List ChessMove :=
  targets.flatMap fun t =>
    match t with
    | some t =>
      if collidesOpponent g t side then [mvCaptures g i t]
      else if !(collides g t) then [(boardGet g.board i).to i t]
      else []
    | Option.none => []

/-- Rust `ChessGame::knight_moves`. -/
def knightMoves (g : ChessGame) (i : Nat) (side : ChessColor) : List ChessMove :=
  hopMoves g side i
    [stepReal i 1 2, stepReal i (-1) 2, stepReal i 1 (-2), stepReal i (-1) (-2),
     stepReal i 2 1, stepReal i (-2) 1, stepReal i 2 (-1), stepReal i (-2) (-1)]

/-- Rust `ChessGame::queen_moves`. -/
def queenMoves (g : ChessGame) (i : Nat) (side : ChessColor) : List ChessMove :=
  rookMoves g i side ++ bishopMoves g i side

/-- Rust `ChessGame::king_moves`. -/
def kingMoves (g : ChessGame) (i : Nat) (side : ChessColor) : List ChessMove :=
  hopMoves g side i
    [stepReal i 0 1, stepReal i 1 1, stepReal i 1 0, stepReal i 1 (-1),
     stepReal i 0 (-1), stepReal i (-1) (-1), stepReal i (-1) 0, stepReal i (-1) 1]

/-- The per-square dispatch of `ChessGame::find_moves`. -/
def squareMoves (g : ChessGame) (side : ChessColor) (i : Nat) : List ChessMove :=
  let p := boardGet g.board i
  if p.color == some side then
    match p with
    | .P _ => pawnMoves g i side
    | .R _ => rookMoves g i side
    | .N _ => knightMoves g i side
    | .B _ => bishopMoves g i side
    | .Q _ => queenMoves g i side
    | .K _ => kingMoves g i side
    | .none => []
  else []

/-- Rust `ChessGame::find_moves`: the pseudo-legal move list, with the two
castle moves appended when both the persistent right and the
currently-available flag hold. -/
def findMoves (g : ChessGame) (side : ChessColor) : List ChessMove :=
  ((List.range 64).flatMap (squareMoves g side)) ++
    (if colIdx side g.can_castle_k && colIdx side g.can_castle_now_k then
      [mvCastle side false] else []) ++
    (if colIdx side g.can_castle_q && colIdx side g.can_castle_now_q then
      [mvCastle side true] else [])

/-- The board-mutation section of Rust `ChessGame::apply_move_internal`
(lines guarded by `mv.piece != ChessPiece::None`): returns the updated
board and the success flag.  A piece-`None` move skips the whole section
and succeeds; a piece that does not match the origin square fails with the
board untouched. -/
def moveEffect (turn : ChessColor) (board : List ChessPiece)
    (mv : ChessMove) : List ChessPiece × Bool :=
  if mv.piece == .none then (board, true)
  else if !(mv.piece == boardGet board mv.origin) then (board, false)
  else
    let b1 := board.set mv.target
      (if mv.promotes == .none then mv.piece else mv.promotes)
    let b2 := b1.set mv.origin .none
    let b3 := if mv.en_passant then
        b2.set (wrapAddSigned mv.target (-8 * turn.dir)) .none
      else b2
    let b4 := if mv.castles then
        let queens : Bool := ((mv.target : Int) - (mv.origin : Int)) == -2
        let rookOrigin := wrapAddSigned mv.origin (if queens then -4 else 3)
        let rookTarget := (mv.target + mv.origin) / 2
        (b3.set rookTarget (boardGet b3 rookOrigin)).set rookOrigin .none
      else b3
    (b4, true)

/-- Rust `ChessGame::apply_temp_move`: save the board aside, then apply
only the move's board effect (`apply_move_internal` with `real = false`,
whose return value is discarded). -/
def applyTempMove (g : ChessGame) (mv : ChessMove) : ChessGame :=
  { g with temp_board := g.board,
           board := (moveEffect g.turn g.board mv).1 }

/-- Rust `ChessGame::restore_temp_move`. -/
def restoreTempMove (g : ChessGame) : ChessGame :=
  { g with board := g.temp_board }

/-- Rust `ChessGame::is_move_legal` (threads the mutated `self`). -/
def isMoveLegal (g : ChessGame) (side : ChessColor) (mv : ChessMove) :
    ChessGame × Bool :=
  let g1 := applyTempMove g mv
  let result := (findMoves g1 side.opposite).all fun x =>
    !(x.captures == ChessPiece.K side)
  (restoreTempMove g1, result)

/-- The pure content of `is_move_legal`: after the move's board effect,
no opponent pseudo-legal move captures `side`'s King. -/
def legalCheck (g : ChessGame) (side : ChessColor) (mv : ChessMove) : Bool :=
  (findMoves (applyTempMove g mv) side.opposite).all fun x =>
    !(x.captures == ChessPiece.K side)

/-- One step of the `filter` in Rust `ChessGame::find_legal_moves`. -/
def flmStep (side : ChessColor) (acc : ChessGame × List ChessMove)
    (mv : ChessMove) : ChessGame × List ChessMove :=
  let r := isMoveLegal acc.1 side mv
  (r.1, if r.2 then acc.2 ++ [mv] else acc.2)

/-- Rust `ChessGame::find_legal_moves`. -/
def findLegalMoves (g : ChessGame) (side : ChessColor) :
    ChessGame × List ChessMove :=
  (findMoves g side).foldl (flmStep side) (g, [])

/-- The en-passant descriptor update of `apply_move_internal`
(`/* check which squares can en passant next turn */`). -/
def updateEp (g : ChessGame) (mv : ChessMove) : ChessGame :=
  let epTarget := (mv.origin + mv.target) / 2
  if mv.piece.str == "" &&
      ((mv.origin : Int) - (mv.target : Int)).natAbs == 16 then
    { g with en_passant_loc :=
        ((match stepReal mv.target 1 0 with
          | some loc => some (loc, epTarget)
          | Option.none => Option.none),
         (match stepReal mv.target (-1) 0 with
          | some loc => some (loc, epTarget)
          | Option.none => Option.none)) }
  else { g with en_passant_loc := (Option.none, Option.none) }

/-- The castle-right revocation of `apply_move_internal`
(`/* check castle eligibility */`). -/
def updateRights (g : ChessGame) (mv : ChessMove) : ChessGame :=
  match mv.piece with
  | .K side =>
    { g with can_castle_k := setIdx side false g.can_castle_k,
             can_castle_q := setIdx side false g.can_castle_q }
  | .R side =>
    if mv.origin == 0 || mv.origin == 56 then
      { g with can_castle_q := setIdx side false g.can_castle_q }
    else if mv.origin == 7 || mv.origin == 63 then
      { g with can_castle_k := setIdx side false g.can_castle_k }
    else g
  | _ => g

/-- The body of the two attack-coverage loops in `apply_move_internal`:
each move may force the queens/kings "castle now" flag to `false`. -/
def castleNowStep (pq pk : ChessMove → Bool) (p : Bool × Bool)
    (m : ChessMove) : Bool × Bool :=
  (if pq m then false else p.1, if pk m then false else p.2)

/-- The `/* check caste eligibility for next turn */` section of
`apply_move_internal`: geometric emptiness, then scans of the two cached
move lists. -/
def updateCastleNow (g : ChessGame) : ChessGame :=
  let b := g.board
  let nqW := (boardGet b 1 == .none) && (boardGet b 2 == .none) &&
    (boardGet b 3 == .none)
  let nkW := (boardGet b 5 == .none) && (boardGet b 6 == .none)
  let nqB := (boardGet b 57 == .none) && (boardGet b 58 == .none) &&
    (boardGet b 59 == .none)
  let nkB := (boardGet b 61 == .none) && (boardGet b 62 == .none)
  let pB := (colIdx .Wh g.next_moves).foldl
    (castleNowStep
      (fun m => m.target == 58 || m.target == 59 || m.target == 60)
      (fun m => m.target == 60 || m.target == 61 || m.target == 62))
    (nqB, nkB)
  let pW := (colIdx .Bl g.next_moves).foldl
    (castleNowStep
      (fun m => m.target == 2 || m.target == 3 || m.target == 4)
      (fun m => m.target == 4 || m.target == 5 || m.target == 6))
    (nqW, nkW)
  { g with can_castle_now_q := (pW.1, pB.1),
           can_castle_now_k := (pW.2, pB.2) }

/-- The game state reached after the board effect, en-passant update and
castle-right revocation of a successful `apply_move`, just before the
cached move lists are recomputed. -/
def simStage (g : ChessGame) (mv : ChessMove) : ChessGame :=
  updateRights
    (updateEp { g with board := (moveEffect g.turn g.board mv).1 } mv) mv

/-- White's cached legal-move list as first recomputed inside
`apply_move` (the list whose targets gate Black's castling). -/
def attackListW (g : ChessGame) (mv : ChessMove) : List ChessMove :=
  (findLegalMoves (simStage g mv) .Wh).2

/-- Black's cached legal-move list as first recomputed inside
`apply_move` (the list whose targets gate White's castling). -/
def attackListB (g : ChessGame) (mv : ChessMove) : List ChessMove :=
  (findLegalMoves (findLegalMoves (simStage g mv) .Wh).1 .Bl).2

/-- The first recomputation of both colors' caches inside `apply_move`
(`/* update possible moves for next turn */`). -/
def stageA (g : ChessGame) (mv : ChessMove) : ChessGame :=
  { (findLegalMoves (findLegalMoves (simStage g mv) .Wh).1 .Bl).1 with
      next_moves := (attackListW g mv, attackListB g mv) }

/-- Then the castle-availability update
(`/* check caste eligibility for next turn */`). -/
def stageB (g : ChessGame) (mv : ChessMove) : ChessGame :=
  updateCastleNow (stageA g mv)

/-- Then the second recomputation of both colors' caches
(`/* update possible moves again ... */`). -/
def stageC (g : ChessGame) (mv : ChessMove) : ChessGame :=
  let rC := findLegalMoves (stageB g mv) .Wh
  let rD := findLegalMoves rC.1 .Bl
  { rD.1 with next_moves := (rC.2, rD.2) }

/-- The whole success branch of `apply_move_internal` with `real = true`:
the stages above followed by the check-state update. -/
def applyMoveBody (g : ChessGame) (mv : ChessMove) : ChessGame :=
  let g5 := stageC g mv
  let inCheck := (colIdx g5.turn g5.next_moves).any fun x =>
    x.captures == ChessPiece.K g5.turn.opposite
  { g5 with state :=
    if inCheck then ChessState.Check else ChessState.Normal }

/-- Rust `ChessGame::apply_move` (= `apply_move_internal` with
`real = true`): a failing board effect returns `false` without touching
the game; otherwise the bookkeeping pipeline runs. -/
def applyMove (g : ChessGame) (mv : ChessMove) : ChessGame × Bool :=
  if (moveEffect g.turn g.board mv).2 then (applyMoveBody g mv, true)
  else (g, false)

/-- Rust `ChessGame::switch_turn`. -/
def switchTurn (g : ChessGame) : ChessGame :=
  { g with turn := g.turn.opposite }

/-- The default chess board of Rust `ChessGame::new`. -/
def startBoard : List ChessPiece :=
  [.R .Wh, .N .Wh, .B .Wh, .Q .Wh, .K .Wh, .B .Wh, .N .Wh, .R .Wh,
   .P .Wh, .P .Wh, .P .Wh, .P .Wh, .P .Wh, .P .Wh, .P .Wh, .P .Wh,
   .none, .none, .none, .none, .none, .none, .none, .none,
   .none, .none, .none, .none, .none, .none, .none, .none,
   .none, .none, .none, .none, .none, .none, .none, .none,
   .none, .none, .none, .none, .none, .none, .none, .none,
   .P .Bl, .P .Bl, .P .Bl, .P .Bl, .P .Bl, .P .Bl, .P .Bl, .P .Bl,
   .R .Bl, .N .Bl, .B .Bl, .Q .Bl, .K .Bl, .B .Bl, .N .Bl, .R .Bl]

/-- Rust `ChessGame::new`: the literal initial record followed by the
state-initialising `apply_move(ChessMove::to(None, 16, 16))` HACK. -/
def ChessGame.new : ChessGame :=
  (applyMove
    { board := startBoard,
      temp_board := List.replicate 64 .none,
      can_castle_k := (true, true),
      can_castle_q := (true, true),
      can_castle_now_k := (false, false),
      can_castle_now_q := (false, false),
      en_passant_loc := (Option.none, Option.none),
      next_moves := ([], []),
      state := .Normal,
      turn := .Wh }
    (ChessMove.to .none 16 16)).1

/-- Rust `ChessGame::get_legal_moves`: the cached list. -/
def getLegalMoves (g : ChessGame) (side : ChessColor) : List ChessMove :=
  colIdx side g.next_moves

/-- Rust `ChessGame::is_check`. -/
def isCheck (g : ChessGame) : Bool :=
  g.state == .Check

/-- An all-empty board, for concrete test positions. -/
def emptyBoard : List ChessPiece := List.replicate 64 .none

/-- A bare game record around a given board: no castling rights, no
en-passant window, empty caches, White to move.  Used only as concrete
input data for the theorems below. -/
def baseGame (b : List ChessPiece) : ChessGame :=
  { board := b,
    temp_board := emptyBoard,
    can_castle_k := (false, false),
    can_castle_q := (false, false),
    can_castle_now_k := (false, false),
    can_castle_now_q := (false, false),
    en_passant_loc := (Option.none, Option.none),
    next_moves := ([], []),
    state := .Normal,
    turn := .Wh }

/-- A pawn en-passant descriptor is absent or records a landing square
strictly between the first and last ranks. -/
def epOk : Option (Nat × Nat) → Bool
  | Option.none => true
  | some p => decide (7 < p.2) && decide (p.2 < 56)

/-- The three squares the King crosses when castling: origin, midpoint and
destination, matching the square sets scanned in `apply_move_internal`. -/
def kingPath (c : ChessColor) (queens : Bool) : List Nat :=
  match c, queens with
  | .Wh, true => [2, 3, 4]
  | .Wh, false => [4, 5, 6]
  | .Bl, true => [58, 59, 60]
  | .Bl, false => [60, 61, 62]

/-- Whether a piece is a pawn of either color. -/
def ChessPiece.isPawn : ChessPiece → Bool
  | .P _ => true
  | _ => false

/-- Whether a piece is a knight of either color. -/
def ChessPiece.isKnight : ChessPiece → Bool
  | .N _ => true
  | _ => false

/-! Concrete test positions used as inputs of witnesses and
counterexamples. -/

/-- A lone white rook on a1. -/
def gRook : ChessGame := baseGame (emptyBoard.set 0 (.R .Wh))

/-- A lone white bishop on a1. -/
def gBish : ChessGame := baseGame (emptyBoard.set 0 (.B .Wh))

/-- Two bare kings on a1 and h8. -/
def gKings : ChessGame :=
  baseGame ((emptyBoard.set 0 (.K .Wh)).set 63 (.K .Bl))

/-- The back-rank mate position of the repository's `checkmate` test:
black King d1, white Rooks f3/e4/c5, White to move. -/
def gMate : ChessGame :=
  baseGame
    ((((emptyBoard.set 3 (.K .Bl)).set 21 (.R .Wh)).set 28 (.R .Wh)).set 34
      (.R .Wh))

/-- The mating rook lift f3-d3 in `gMate`. -/
def mvMate : ChessMove := ChessMove.to (.R .Wh) 21 19

/-- White ready to castle kingside (K e1, R h1) while the black bishop on
b4 is pinned against its own king on b7 by the white rook on b1: the
bishop pseudo-legally attacks e1 but has no legal move. -/
def gPin : ChessGame :=
  { baseGame
      (((((emptyBoard.set 1 (.R .Wh)).set 4 (.K .Wh)).set 7 (.R .Wh)).set 25
          (.B .Bl)).set 49 (.K .Bl))
    with can_castle_k := (true, false) }

/-- The state-refresh HACK move also used by `set_all_castle_eligibility`. -/
def mvNone00 : ChessMove := ChessMove.to .none 0 0

/-! ### Basic lemmas about the generators -/

theorem mem_mvPromotion_fields {m mv0 : ChessMove} (hm : m ∈ mvPromotion mv0) :
    m.piece = mv0.piece ∧ m.origin = mv0.origin ∧ m.target = mv0.target ∧
      m.captures = mv0.captures ∧ m.en_passant = mv0.en_passant ∧
      m.castles = mv0.castles := by
  unfold mvPromotion at hm
  split at hm
  · simp at hm
  · split at hm
    · simp only [List.mem_cons, List.not_mem_nil, or_false] at hm
      rcases hm with h | h | h | h <;> subst h <;>
        exact ⟨rfl, rfl, rfl, rfl, rfl, rfl⟩
    · simp only [List.mem_singleton] at hm
      subst hm
      exact ⟨rfl, rfl, rfl, rfl, rfl, rfl⟩

theorem mem_mvPromotion_promotes {m mv0 : ChessMove} (hm : m ∈ mvPromotion mv0)
    (ht : 55 < mv0.target ∨ mv0.target < 8) :
    ¬(m.promotes = ChessPiece.none) := by
  unfold mvPromotion at hm
  split at hm
  · simp at hm
  · rw [if_pos ht] at hm
    simp only [List.mem_cons, List.not_mem_nil, or_false] at hm
    rcases hm with h | h | h | h <;> subst h <;> simp

theorem mvPromotion_eq_lastRank {mv0 : ChessMove} {col : ChessColor}
    (hc : mv0.piece.color = some col) (ht : 55 < mv0.target ∨ mv0.target < 8) :
    mvPromotion mv0 =
      [{ mv0 with promotes := .R col }, { mv0 with promotes := .N col },
       { mv0 with promotes := .B col }, { mv0 with promotes := .Q col }] := by
  unfold mvPromotion
  split
  · simp_all
  · next col2 heq =>
    rw [hc] at heq
    cases heq
    rw [if_pos ht]

/-- The double-step targets of `pawn_moves` always land between the second
and seventh ranks. -/
theorem step_double_bounds {i t : Nat} {side : ChessColor}
    (hh : ((i < 16 && 7 < i) || (i < 56 && 47 < i)) = true)
    (hs : step i 0 2 side = some t) : 7 < t ∧ t < 56 := by
  simp only [Bool.or_eq_true, Bool.and_eq_true, decide_eq_true_eq] at hh
  unfold step at hs
  cases side <;> simp only [ChessColor.dir] at hs <;>
    split at hs <;> simp_all <;> omega

/-- Every element of `pawn_moves` comes from the forward block, the
double-step block, the capture block or the en-passant block. -/
theorem pawnMoves_cases {g : ChessGame} {i : Nat} {side : ChessColor}
    {m : ChessMove} (hm : m ∈ pawnMoves g i side) :
    (∃ t, step i 0 1 side = some t ∧
      m ∈ mvPromotion ((boardGet g.board i).to i t)) ∨
    (∃ t2, ((i < 16 && 7 < i) || (i < 56 && 47 < i)) = true ∧
      step i 0 2 side = some t2 ∧ m = (boardGet g.board i).to i t2) ∨
    (∃ t, m ∈ mvPromotion (mvCaptures g i t)) ∨
    (∃ o t, (g.en_passant_loc.1 = some (o, t) ∨
      g.en_passant_loc.2 = some (o, t)) ∧ m = mvEnPassant g o t) := by
  simp only [pawnMoves, List.mem_append] at hm
  rcases hm with (h | h) | h
  · split at h
    · next t hstep =>
      split at h
      · simp at h
      · rcases List.mem_append.1 h with h2 | h2
        · exact Or.inl ⟨t, hstep, h2⟩
        · split at h2
          · next hhome =>
            split at h2
            · next t2 hstep2 =>
              split at h2
              · simp only [List.mem_singleton] at h2
                exact Or.inr (Or.inl ⟨t2, hhome, hstep2, h2⟩)
              · simp at h2
            · simp at h2
          · simp at h2
    · simp at h
  · simp only [List.mem_flatMap] at h
    obtain ⟨pos, hposmem, h⟩ := h
    split at h
    · next t =>
      split at h
      · exact Or.inr (Or.inr (Or.inl ⟨t, h⟩))
      · simp at h
    · simp at h
  · simp only [List.mem_flatMap, List.mem_cons, List.not_mem_nil, or_false]
      at h
    obtain ⟨loc, hloc, h⟩ := h
    split at h
    · next o t =>
      split at h
      · next hio =>
        simp only [List.mem_singleton] at h
        refine Or.inr (Or.inr (Or.inr ⟨o, t, ?_, h⟩))
        rcases hloc with h1 | h1 <;> [exact Or.inl h1.symm; exact Or.inr h1.symm]
      · simp at h
    · simp at h

theorem pawnMoves_castles {g : ChessGame} {i : Nat} {side : ChessColor}
    {m : ChessMove} (hm : m ∈ pawnMoves g i side) : m.castles = false := by
  rcases pawnMoves_cases hm with ⟨t, _, h⟩ | ⟨t2, _, _, h⟩ | ⟨t, h⟩ |
    ⟨o, t, _, h⟩
  · exact (mem_mvPromotion_fields h).2.2.2.2.2
  · subst h; rfl
  · exact (mem_mvPromotion_fields h).2.2.2.2.2
  · subst h; rfl

theorem pawnMoves_ep_flag {g : ChessGame} {i : Nat} {side : ChessColor}
    {m : ChessMove}
    (hnone : g.en_passant_loc = (Option.none, Option.none))
    (hm : m ∈ pawnMoves g i side) : m.en_passant = false := by
  rcases pawnMoves_cases hm with ⟨t, _, h⟩ | ⟨t2, _, _, h⟩ | ⟨t, h⟩ |
    ⟨o, t, hloc, h⟩
  · exact (mem_mvPromotion_fields h).2.2.2.2.1
  · subst h; rfl
  · exact (mem_mvPromotion_fields h).2.2.2.2.1
  · rw [hnone] at hloc; simp at hloc

/-- No pawn move with a last-rank target escapes the promotion expansion
(assuming well-formed en-passant descriptors). -/
theorem pawnMoves_lastRank_promotes {g : ChessGame} {i : Nat}
    {side : ChessColor} {m : ChessMove}
    (hep1 : epOk g.en_passant_loc.1 = true)
    (hep2 : epOk g.en_passant_loc.2 = true)
    (hm : m ∈ pawnMoves g i side) (ht : 55 < m.target ∨ m.target < 8) :
    ¬(m.promotes = ChessPiece.none) := by
  rcases pawnMoves_cases hm with ⟨t, _, h⟩ | ⟨t2, hhome, hstep, h⟩ |
    ⟨t, h⟩ | ⟨o, t, hloc, h⟩
  · have hf := mem_mvPromotion_fields h
    exact mem_mvPromotion_promotes h (by rw [← hf.2.2.1]; exact ht)
  · have hb := step_double_bounds hhome hstep
    subst h
    simp only [ChessPiece.to, ChessMove.to] at ht
    omega
  · have hf := mem_mvPromotion_fields h
    exact mem_mvPromotion_promotes h (by rw [← hf.2.2.1]; exact ht)
  · subst h
    simp only [mvEnPassant] at ht
    rcases hloc with h1 | h1
    · rw [h1] at hep1
      simp only [epOk, Bool.and_eq_true, decide_eq_true_eq] at hep1
      omega
    · rw [h1] at hep2
      simp only [epOk, Bool.and_eq_true, decide_eq_true_eq] at hep2
      omega

theorem rayMoves_castles {g : ChessGame} {side : ChessColor} {i : Nat}
    {dx dy : Int} :
    ∀ (fuel j : Nat) {m : ChessMove},
      m ∈ rayMoves g side i dx dy j fuel → m.castles = false := by
  intro fuel
  induction fuel with
  | zero => intro j m hm; simp [rayMoves] at hm
  | succ n ih =>
    intro j m hm
    simp only [rayMoves] at hm
    split at hm
    · split at hm
      · simp only [List.mem_singleton] at hm; subst hm; rfl
      · split at hm
        · rcases List.mem_cons.1 hm with h | h
          · subst h; rfl
          · exact ih (j + 1) h
        · simp at hm
    · simp at hm

theorem hopMoves_castles {g : ChessGame} {side : ChessColor} {i : Nat}
    {ts : List (Option Nat)} {m : ChessMove} (hm : m ∈ hopMoves g side i ts) :
    m.castles = false := by
  simp only [hopMoves, List.mem_flatMap] at hm
  obtain ⟨t, htmem, hm⟩ := hm
  split at hm
  · split at hm
    · simp only [List.mem_singleton] at hm; subst hm; rfl
    · split at hm
      · simp only [List.mem_singleton] at hm; subst hm; rfl
      · simp at hm
  · simp at hm

theorem mem_append4 {α : Type} {l1 l2 l3 l4 : List α} {a : α}
    (h : a ∈ l1 ++ l2 ++ l3 ++ l4) :
    a ∈ l1 ∨ a ∈ l2 ∨ a ∈ l3 ∨ a ∈ l4 := by
  simp only [List.mem_append] at h
  tauto

theorem squareMoves_castles {g : ChessGame} {side : ChessColor} {i : Nat}
    {m : ChessMove} (hm : m ∈ squareMoves g side i) : m.castles = false := by
  simp only [squareMoves] at hm
  split at hm
  · split at hm
    · exact pawnMoves_castles hm
    · rw [rookMoves] at hm
      rcases mem_append4 hm with h | h | h | h <;> exact rayMoves_castles 6 1 h
    · exact hopMoves_castles hm
    · rw [bishopMoves] at hm
      rcases mem_append4 hm with h | h | h | h <;> exact rayMoves_castles 6 1 h
    · rw [queenMoves] at hm
      rcases List.mem_append.1 hm with h | h
      · rw [rookMoves] at h
        rcases mem_append4 h with h2 | h2 | h2 | h2 <;>
          exact rayMoves_castles 6 1 h2
      · rw [bishopMoves] at h
        rcases mem_append4 h with h2 | h2 | h2 | h2 <;>
          exact rayMoves_castles 6 1 h2
    · exact hopMoves_castles hm
    · simp at hm
  · simp at hm

theorem piecesMoves_castles {g : ChessGame} {side : ChessColor}
    {m : ChessMove} (hm : m ∈ (List.range 64).flatMap (squareMoves g side)) :
    m.castles = false := by
  rw [List.mem_flatMap] at hm
  obtain ⟨i, _, hm⟩ := hm
  exact squareMoves_castles hm

theorem mvCastle_castles (side : ChessColor) (q : Bool) :
    (mvCastle side q).castles = true := rfl

theorem mvCastle_q_ne_k (c : ChessColor) : ¬(mvCastle c false = mvCastle c true) := by
  cases c <;> decide

/-- A kingside castle move is generated by `find_moves` only when both the
persistent kingside right and the kingside "castle now" flag hold. -/
theorem mem_findMoves_castle_k {g : ChessGame} {c : ChessColor}
    (hm : mvCastle c false ∈ findMoves g c) :
    (colIdx c g.can_castle_k && colIdx c g.can_castle_now_k) = true := by
  unfold findMoves at hm
  rcases List.mem_append.1 hm with h | h
  · rcases List.mem_append.1 h with h2 | h2
    · exact absurd (piecesMoves_castles h2) (by simp [mvCastle_castles])
    · split at h2
      · next hcond => exact hcond
      · simp at h2
  · split at h
    · simp only [List.mem_singleton] at h
      exact absurd h (mvCastle_q_ne_k c)
    · simp at h

/-- A queenside castle move is generated by `find_moves` only when both the
persistent queenside right and the queenside "castle now" flag hold. -/
theorem mem_findMoves_castle_q {g : ChessGame} {c : ChessColor}
    (hm : mvCastle c true ∈ findMoves g c) :
    (colIdx c g.can_castle_q && colIdx c g.can_castle_now_q) = true := by
  unfold findMoves at hm
  rcases List.mem_append.1 hm with h | h
  · rcases List.mem_append.1 h with h2 | h2
    · exact absurd (piecesMoves_castles h2) (by simp [mvCastle_castles])
    · split at h2
      · simp only [List.mem_singleton] at h2
        exact absurd h2.symm (mvCastle_q_ne_k c)
      · simp at h2
  · split at h
    · next hcond => exact hcond
    · simp at h

/-- First component of the attack-coverage loop: the queens-side flag
survives iff it started true and no scanned move satisfies `pq`. -/
theorem castleNowFold_fst (pq pk : ChessMove → Bool) :
    ∀ (l : List ChessMove) (a b : Bool),
      (l.foldl (castleNowStep pq pk) (a, b)).1 =
        (a && l.all fun m => !(pq m)) := by
  intro l
  induction l with
  | nil => intro a b; simp
  | cons x l ih =>
    intro a b
    rw [List.foldl_cons, List.all_cons]
    show (l.foldl (castleNowStep pq pk)
      (if pq x then false else a, if pk x then false else b)).1 = _
    rw [ih]
    cases hx : pq x <;> simp [hx]

/-- Second component of the attack-coverage loop: the kings-side flag
survives iff it started true and no scanned move satisfies `pk`. -/
theorem castleNowFold_snd (pq pk : ChessMove → Bool) :
    ∀ (l : List ChessMove) (a b : Bool),
      (l.foldl (castleNowStep pq pk) (a, b)).2 =
        (b && l.all fun m => !(pk m)) := by
  intro l
  induction l with
  | nil => intro a b; simp
  | cons x l ih =>
    intro a b
    rw [List.foldl_cons, List.all_cons]
    show (l.foldl (castleNowStep pq pk)
      (if pq x then false else a, if pk x then false else b)).2 = _
    rw [ih]
    cases hx : pk x <;> simp [hx]

/-! ### Lemmas about the legality filter -/

theorem isMoveLegal_fst (g : ChessGame) (side : ChessColor) (mv : ChessMove) :
    (isMoveLegal g side mv).1 = { g with temp_board := g.board } := rfl

theorem isMoveLegal_snd (g : ChessGame) (side : ChessColor) (mv : ChessMove) :
    (isMoveLegal g side mv).2 = legalCheck g side mv := rfl

theorem legalCheck_temp_irrel (g : ChessGame) (t : List ChessPiece)
    (side : ChessColor) (mv : ChessMove) :
    legalCheck { g with temp_board := t } side mv = legalCheck g side mv := rfl

/-- The game threaded through `find_legal_moves` is the input game with at
most its scratch board overwritten. -/
theorem flm_go_fst (g : ChessGame) (side : ChessColor) :
    ∀ (l : List ChessMove) (h : ChessGame) (acc : List ChessMove),
      (h = g ∨ h = { g with temp_board := g.board }) →
      ((l.foldl (flmStep side) (h, acc)).1 = g ∨
        (l.foldl (flmStep side) (h, acc)).1 =
          { g with temp_board := g.board }) := by
  intro l
  induction l with
  | nil => intro h acc hh; simpa using hh
  | cons x l ih =>
    intro h acc hh
    rw [List.foldl_cons]
    refine ih _ _ (Or.inr ?_)
    show (isMoveLegal h side x).1 = _
    rw [isMoveLegal_fst]
    rcases hh with h1 | h1 <;> rw [h1]

theorem flm_fst_or (g : ChessGame) (side : ChessColor) :
    (findLegalMoves g side).1 = g ∨
      (findLegalMoves g side).1 = { g with temp_board := g.board } :=
  flm_go_fst g side _ g [] (Or.inl rfl)

theorem flm_board (g : ChessGame) (side : ChessColor) :
    (findLegalMoves g side).1.board = g.board := by
  rcases flm_fst_or g side with h | h <;> rw [h]

theorem flm_turn (g : ChessGame) (side : ChessColor) :
    (findLegalMoves g side).1.turn = g.turn := by
  rcases flm_fst_or g side with h | h <;> rw [h]

theorem flm_next_moves (g : ChessGame) (side : ChessColor) :
    (findLegalMoves g side).1.next_moves = g.next_moves := by
  rcases flm_fst_or g side with h | h <;> rw [h]

theorem flm_ep (g : ChessGame) (side : ChessColor) :
    (findLegalMoves g side).1.en_passant_loc = g.en_passant_loc := by
  rcases flm_fst_or g side with h | h <;> rw [h]

theorem flm_ck (g : ChessGame) (side : ChessColor) :
    (findLegalMoves g side).1.can_castle_k = g.can_castle_k := by
  rcases flm_fst_or g side with h | h <;> rw [h]

theorem flm_cq (g : ChessGame) (side : ChessColor) :
    (findLegalMoves g side).1.can_castle_q = g.can_castle_q := by
  rcases flm_fst_or g side with h | h <;> rw [h]

theorem flm_cnk (g : ChessGame) (side : ChessColor) :
    (findLegalMoves g side).1.can_castle_now_k = g.can_castle_now_k := by
  rcases flm_fst_or g side with h | h <;> rw [h]

theorem flm_cnq (g : ChessGame) (side : ChessColor) :
    (findLegalMoves g side).1.can_castle_now_q = g.can_castle_now_q := by
  rcases flm_fst_or g side with h | h <;> rw [h]

theorem flm_state (g : ChessGame) (side : ChessColor) :
    (findLegalMoves g side).1.state = g.state := by
  rcases flm_fst_or g side with h | h <;> rw [h]

/-- Every move collected by the `find_legal_moves` fold passed the
legality check against the original game. -/
theorem flm_go_mem (g : ChessGame) (side : ChessColor) :
    ∀ (l : List ChessMove) (h : ChessGame) (acc : List ChessMove),
      (h = g ∨ h = { g with temp_board := g.board }) →
      (∀ m ∈ acc, legalCheck g side m = true) →
      ∀ m ∈ (l.foldl (flmStep side) (h, acc)).2,
        legalCheck g side m = true := by
  intro l
  induction l with
  | nil => intro h acc _ hacc; simpa using hacc
  | cons x l ih =>
    intro h acc hh hacc
    rw [List.foldl_cons]
    have hstep : flmStep side (h, acc) x =
        ((isMoveLegal h side x).1,
         if (isMoveLegal h side x).2 then acc ++ [x] else acc) := rfl
    rw [hstep]
    have hfst : (isMoveLegal h side x).1 = { g with temp_board := g.board } := by
      rw [isMoveLegal_fst]
      rcases hh with h1 | h1 <;> rw [h1]
    have hsnd : (isMoveLegal h side x).2 = legalCheck g side x := by
      rw [isMoveLegal_snd]
      rcases hh with h1 | h1 <;> rw [h1]
      exact legalCheck_temp_irrel g g.board side x
    rw [hfst, hsnd]
    refine ih _ _ (Or.inr rfl) ?_
    cases hx : legalCheck g side x with
    | true =>
      rw [if_pos rfl]
      intro m hmem
      rcases List.mem_append.1 hmem with h2 | h2
      · exact hacc m h2
      · simp only [List.mem_singleton] at h2
        subst h2
        exact hx
    | false =>
      rw [if_neg (by simp)]
      exact hacc

/-! ### Projection lemmas along the `apply_move` pipeline -/

theorem updateEp_turn (g : ChessGame) (mv : ChessMove) :
    (updateEp g mv).turn = g.turn := by
  unfold updateEp; split <;> rfl

theorem updateEp_clear (g : ChessGame) (mv : ChessMove)
    (hnd : (mv.piece.str == "" &&
      ((mv.origin : Int) - (mv.target : Int)).natAbs == 16) = false) :
    (updateEp g mv).en_passant_loc = (Option.none, Option.none) := by
  unfold updateEp
  rw [if_neg (by simp [hnd])]

theorem updateRights_turn (g : ChessGame) (mv : ChessMove) :
    (updateRights g mv).turn = g.turn := by
  unfold updateRights
  split
  · rfl
  · split
    · rfl
    · split <;> rfl
  · rfl

theorem updateRights_ep (g : ChessGame) (mv : ChessMove) :
    (updateRights g mv).en_passant_loc = g.en_passant_loc := by
  unfold updateRights
  split
  · rfl
  · split
    · rfl
    · split <;> rfl
  · rfl

theorem simStage_turn (g : ChessGame) (mv : ChessMove) :
    (simStage g mv).turn = g.turn := by
  unfold simStage
  rw [updateRights_turn, updateEp_turn]

theorem simStage_ep_clear (g : ChessGame) (mv : ChessMove)
    (hnd : (mv.piece.str == "" &&
      ((mv.origin : Int) - (mv.target : Int)).natAbs == 16) = false) :
    (simStage g mv).en_passant_loc = (Option.none, Option.none) := by
  unfold simStage
  rw [updateRights_ep, updateEp_clear _ _ hnd]

theorem updateCastleNow_turn (g : ChessGame) :
    (updateCastleNow g).turn = g.turn := rfl

theorem updateCastleNow_ep (g : ChessGame) :
    (updateCastleNow g).en_passant_loc = g.en_passant_loc := rfl

/-- The kings-side "castle now" flags computed by `updateCastleNow`:
geometric emptiness and no opposing cached move targeting the squares the
King crosses. -/
theorem updateCastleNow_now_k (g : ChessGame) :
    (updateCastleNow g).can_castle_now_k =
      (((boardGet g.board 5 == .none) && (boardGet g.board 6 == .none) &&
          (colIdx .Bl g.next_moves).all fun m =>
            !(m.target == 4 || m.target == 5 || m.target == 6)),
       ((boardGet g.board 61 == .none) && (boardGet g.board 62 == .none) &&
          (colIdx .Wh g.next_moves).all fun m =>
            !(m.target == 60 || m.target == 61 || m.target == 62))) := by
  unfold updateCastleNow
  rw [Prod.mk.injEq]
  constructor
  · exact castleNowFold_snd _ _ _ _ _
  · exact castleNowFold_snd _ _ _ _ _

/-- The queens-side "castle now" flags computed by `updateCastleNow`. -/
theorem updateCastleNow_now_q (g : ChessGame) :
    (updateCastleNow g).can_castle_now_q =
      (((boardGet g.board 1 == .none) && (boardGet g.board 2 == .none) &&
          (boardGet g.board 3 == .none) &&
          (colIdx .Bl g.next_moves).all fun m =>
            !(m.target == 2 || m.target == 3 || m.target == 4)),
       ((boardGet g.board 57 == .none) && (boardGet g.board 58 == .none) &&
          (boardGet g.board 59 == .none) &&
          (colIdx .Wh g.next_moves).all fun m =>
            !(m.target == 58 || m.target == 59 || m.target == 60))) := by
  unfold updateCastleNow
  rw [Prod.mk.injEq]
  constructor
  · exact castleNowFold_fst _ _ _ _ _
  · exact castleNowFold_fst _ _ _ _ _

theorem stageA_turn (g : ChessGame) (mv : ChessMove) :
    (stageA g mv).turn = g.turn := by
  simp only [stageA]
  rw [flm_turn, flm_turn, simStage_turn]

theorem stageA_next (g : ChessGame) (mv : ChessMove) :
    (stageA g mv).next_moves = (attackListW g mv, attackListB g mv) := rfl

theorem stageA_ep (g : ChessGame) (mv : ChessMove) :
    (stageA g mv).en_passant_loc = (simStage g mv).en_passant_loc := by
  simp only [stageA]
  rw [flm_ep, flm_ep]

theorem stageB_turn (g : ChessGame) (mv : ChessMove) :
    (stageB g mv).turn = g.turn := by
  unfold stageB
  rw [updateCastleNow_turn, stageA_turn]

theorem stageB_ep (g : ChessGame) (mv : ChessMove) :
    (stageB g mv).en_passant_loc = (simStage g mv).en_passant_loc := by
  unfold stageB
  rw [updateCastleNow_ep, stageA_ep]

theorem stageC_turn (g : ChessGame) (mv : ChessMove) :
    (stageC g mv).turn = g.turn := by
  simp only [stageC]
  rw [flm_turn, flm_turn, stageB_turn]

theorem stageC_ep (g : ChessGame) (mv : ChessMove) :
    (stageC g mv).en_passant_loc = (simStage g mv).en_passant_loc := by
  simp only [stageC]
  rw [flm_ep, flm_ep, stageB_ep]

theorem stageC_cnk (g : ChessGame) (mv : ChessMove) :
    (stageC g mv).can_castle_now_k = (stageB g mv).can_castle_now_k := by
  simp only [stageC]
  rw [flm_cnk, flm_cnk]

theorem stageC_cnq (g : ChessGame) (mv : ChessMove) :
    (stageC g mv).can_castle_now_q = (stageB g mv).can_castle_now_q := by
  simp only [stageC]
  rw [flm_cnq, flm_cnq]

theorem applyMoveBody_turn (g : ChessGame) (mv : ChessMove) :
    (applyMoveBody g mv).turn = g.turn := by
  simp only [applyMoveBody]
  exact stageC_turn g mv

theorem applyMoveBody_next (g : ChessGame) (mv : ChessMove) :
    (applyMoveBody g mv).next_moves = (stageC g mv).next_moves := rfl

theorem applyMoveBody_ep (g : ChessGame) (mv : ChessMove) :
    (applyMoveBody g mv).en_passant_loc = (simStage g mv).en_passant_loc := by
  simp only [applyMoveBody]
  exact stageC_ep g mv

theorem applyMoveBody_cnk (g : ChessGame) (mv : ChessMove) :
    (applyMoveBody g mv).can_castle_now_k = (stageB g mv).can_castle_now_k := by
  simp only [applyMoveBody]
  exact stageC_cnk g mv

theorem applyMoveBody_cnq (g : ChessGame) (mv : ChessMove) :
    (applyMoveBody g mv).can_castle_now_q = (stageB g mv).can_castle_now_q := by
  simp only [applyMoveBody]
  exact stageC_cnq g mv

theorem applyMove_fst (g : ChessGame) (mv : ChessMove)
    (h : (applyMove g mv).2 = true) :
    (applyMove g mv).1 = applyMoveBody g mv := by
  unfold applyMove at h ⊢
  split at h
  · next he => rw [if_pos he]
  · simp at h

/-! ### Claim theorems -/

/-- C1: every move accepted by `find_legal_moves(side)` survives the
simulate-and-scan test: after applying the move's board effect, no move in
the opponent's full pseudo-legal move set captures `side`'s King. -/
theorem findLegalMoves_king_safe (g : ChessGame) (side : ChessColor)
    (mv : ChessMove) (hm : mv ∈ (findLegalMoves g side).2) :
    ((findMoves (applyTempMove g mv) side.opposite).all fun x =>
      !(x.captures == ChessPiece.K side)) = true :=
  flm_go_mem g side (findMoves g side) g [] (Or.inl rfl)
    (by intro m hmem; simp at hmem) mv hm

/-- C1 witness: the white king step a1-b1 is legal for the two-king
position and indeed leaves no black reply capturing the white King. -/
theorem findLegalMoves_king_safe_case :
    ((findMoves (applyTempMove gKings (ChessMove.to (.K .Wh) 0 1))
      ChessColor.Wh.opposite).all fun x =>
      !(x.captures == ChessPiece.K .Wh)) = true :=
  findLegalMoves_king_safe gKings .Wh (ChessMove.to (.K .Wh) 0 1) (by decide)

/-- C4 (amended): a move whose piece is not the `None` piece and does not
match the board's occupant at its origin is rejected: `apply_move` returns
`false` and the whole game record is returned unchanged. -/
theorem applyMove_mismatch_rejected (g : ChessGame) (mv : ChessMove)
    (h1 : ¬(mv.piece = ChessPiece.none))
    (h2 : ¬(mv.piece = boardGet g.board mv.origin))
    (h3 : mv.origin < 64) :
    applyMove g mv = (g, false) := by
  have he : (moveEffect g.turn g.board mv).2 = false := by
    unfold moveEffect
    rw [if_neg (by simp [h1]), if_pos (by simp [h2])]
  unfold applyMove
  rw [he]
  simp

/-- C4 witness: a white rook move announced from an empty square is
rejected and the game is untouched. -/
theorem applyMove_mismatch_rejected_case :
    applyMove gRook (ChessMove.to (.R .Wh) 8 16) = (gRook, false) :=
  applyMove_mismatch_rejected gRook (ChessMove.to (.R .Wh) 8 16)
    (by decide) (by decide) (by decide)

/-- C4 counterexample: the piece-`None` HACK move mismatches the occupant
of its origin square (a white rook), yet `apply_move` reports success and
mutates the game, contradicting the claim for such moves. -/
theorem applyMove_none_piece_mismatch_accepted :
    ¬((ChessMove.to ChessPiece.none 0 0).piece =
      boardGet gRook.board (ChessMove.to ChessPiece.none 0 0).origin) ∧
    (applyMove gRook (ChessMove.to ChessPiece.none 0 0)).2 = true ∧
    ¬((applyMove gRook (ChessMove.to ChessPiece.none 0 0)).1 = gRook) := by
  decide

/-- C6: a last-rank pawn move is expanded into exactly the four promotion
copies (Rook, Knight, Bishop, Queen of the mover's color, in this order),
and `pawn_moves` never emits an unpromoted move with a last-rank target
(given well-formed en-passant descriptors). -/
theorem pawn_promotion_expansion (mv : ChessMove) (col : ChessColor)
    (g : ChessGame) (i : Nat) (side : ChessColor)
    (h1 : mv.piece.color = some col)
    (h2 : 55 < mv.target ∨ mv.target < 8)
    (hep1 : epOk g.en_passant_loc.1 = true)
    (hep2 : epOk g.en_passant_loc.2 = true) :
    mvPromotion mv =
      [{ mv with promotes := .R col }, { mv with promotes := .N col },
       { mv with promotes := .B col }, { mv with promotes := .Q col }] ∧
      ∀ m ∈ pawnMoves g i side, (55 < m.target ∨ m.target < 8) →
        ¬(m.promotes = ChessPiece.none) :=
  ⟨mvPromotion_eq_lastRank h1 h2,
   fun _ hm ht => pawnMoves_lastRank_promotes hep1 hep2 hm ht⟩

/-- C6 witness: promoting the push e7-e8 yields the four promotion
variants. -/
theorem pawn_promotion_expansion_case :
    mvPromotion (ChessMove.to (.P .Wh) 52 60) =
      [{ ChessMove.to (.P .Wh) 52 60 with promotes := .R .Wh },
       { ChessMove.to (.P .Wh) 52 60 with promotes := .N .Wh },
       { ChessMove.to (.P .Wh) 52 60 with promotes := .B .Wh },
       { ChessMove.to (.P .Wh) 52 60 with promotes := .Q .Wh }] :=
  (pawn_promotion_expansion (ChessMove.to (.P .Wh) 52 60) .Wh gRook 0 .Wh
    rfl (by decide) (by decide) (by decide)).1

/-- C7: a successful `apply_move` of anything that is not a pawn double
step clears both en-passant descriptors, so the resulting position offers
no en-passant capture at all in its pawn move generation. -/
theorem en_passant_cleared_after_non_double_step (g : ChessGame)
    (mv : ChessMove) (hs : (applyMove g mv).2 = true)
    (hnd : (mv.piece.str == "" &&
      ((mv.origin : Int) - (mv.target : Int)).natAbs == 16) = false) :
    (applyMove g mv).1.en_passant_loc = (Option.none, Option.none) ∧
      ∀ (i : Nat) (side : ChessColor) (m : ChessMove),
        m ∈ pawnMoves (applyMove g mv).1 i side → m.en_passant = false := by
  rw [applyMove_fst g mv hs]
  have hep : (applyMoveBody g mv).en_passant_loc =
      (Option.none, Option.none) := by
    rw [applyMoveBody_ep, simStage_ep_clear g mv hnd]
  exact ⟨hep, fun _ _ _ hm => pawnMoves_ep_flag hep hm⟩

/-- C7 witness: after the rook move a1-b1 both descriptors are `None`. -/
theorem en_passant_cleared_after_non_double_step_case :
    (applyMove gRook (ChessMove.to (.R .Wh) 0 1)).1.en_passant_loc =
      (Option.none, Option.none) :=
  (en_passant_cleared_after_non_double_step gRook
    (ChessMove.to (.R .Wh) 0 1) (by decide) (by decide)).1

/-- C8: the legality check restores the board on every path - the result
of `is_move_legal` carries the same observable board as its input, and so
does the game threaded through a whole `find_legal_moves` pass. -/
theorem legality_filter_preserves_board (g : ChessGame) (side : ChessColor)
    (mv : ChessMove) :
    (isMoveLegal g side mv).1.board = g.board ∧
      (findLegalMoves g side).1.board = g.board :=
  ⟨by rw [isMoveLegal_fst], flm_board g side⟩

/-- C10: `switch_turn` flips the turn to the opposite color and leaves
every other component of the game untouched. -/
theorem switch_turn_only_flips_turn (g : ChessGame) :
    (switchTurn g).turn = g.turn.opposite ∧
    (switchTurn g).board = g.board ∧
    (switchTurn g).temp_board = g.temp_board ∧
    (switchTurn g).can_castle_k = g.can_castle_k ∧
    (switchTurn g).can_castle_q = g.can_castle_q ∧
    (switchTurn g).can_castle_now_k = g.can_castle_now_k ∧
    (switchTurn g).can_castle_now_q = g.can_castle_now_q ∧
    (switchTurn g).en_passant_loc = g.en_passant_loc ∧
    (switchTurn g).next_moves = g.next_moves ∧
    (switchTurn g).state = g.state :=
  ⟨rfl, rfl, rfl, rfl, rfl, rfl, rfl, rfl, rfl, rfl⟩

/-- C2 (amended): after every successful `apply_move` the game is in
`Check` iff the cached legal-move list of the side still to move (the
mover - the turn is not advanced) contains a capture of the opponent's
King. -/
theorem applyMove_state_check_iff (g : ChessGame) (mv : ChessMove)
    (hs : (applyMove g mv).2 = true) :
    ((applyMove g mv).1.state = ChessState.Check) ↔
      ((colIdx (applyMove g mv).1.turn (applyMove g mv).1.next_moves).any
        fun x => x.captures ==
          ChessPiece.K (applyMove g mv).1.turn.opposite) = true := by
  rw [applyMove_fst g mv hs]
  simp only [applyMoveBody]
  split <;> simp_all

/-- C2 witness: the relation holds after the quiet rook move a1-b1. -/
theorem applyMove_state_check_iff_case :
    ((applyMove gRook (ChessMove.to (.R .Wh) 0 1)).1.state =
        ChessState.Check) ↔
      ((colIdx (applyMove gRook (ChessMove.to (.R .Wh) 0 1)).1.turn
          (applyMove gRook (ChessMove.to (.R .Wh) 0 1)).1.next_moves).any
        fun x => x.captures == ChessPiece.K
          (applyMove gRook (ChessMove.to (.R .Wh) 0 1)).1.turn.opposite) =
        true :=
  applyMove_state_check_iff gRook (ChessMove.to (.R .Wh) 0 1) (by decide)

/-- C2 counterexample: in the repository's own back-rank mate position the
mating move succeeds and sets the state to `Check`, yet the cached list of
the opponent of the side to move (Black, who is checkmated) contains no
capture of the mover's King - the claim's iff fails as stated. -/
theorem state_check_opponent_cache_refuted :
    (applyMove gMate mvMate).2 = true ∧
    (applyMove gMate mvMate).1.state = ChessState.Check ∧
    ((colIdx ((applyMove gMate mvMate).1.turn.opposite)
        (applyMove gMate mvMate).1.next_moves).any fun x =>
      x.captures == ChessPiece.K (applyMove gMate mvMate).1.turn) = false := by
  decide

/-- C3: the sliding-ray loops iterate `for j in 1..7`, i.e. at most six
steps, so a rook (or bishop) on a1 of an otherwise empty board never
receives the distance-seven moves a1-h1, a1-a8 (a1-h8), although those
target squares are empty and on the board; the distance-six moves are the
farthest generated. -/
theorem rook_ray_misses_seventh_square :
    ChessMove.to (ChessPiece.R .Wh) 0 6 ∈ findMoves gRook .Wh ∧
    ChessMove.to (ChessPiece.R .Wh) 0 7 ∉ findMoves gRook .Wh ∧
    ChessMove.to (ChessPiece.R .Wh) 0 48 ∈ findMoves gRook .Wh ∧
    ChessMove.to (ChessPiece.R .Wh) 0 56 ∉ findMoves gRook .Wh ∧
    ChessMove.to (ChessPiece.B .Wh) 0 54 ∈ findMoves gBish .Wh ∧
    ChessMove.to (ChessPiece.B .Wh) 0 63 ∉ findMoves gBish .Wh ∧
    boardGet gRook.board 7 = ChessPiece.none ∧
    boardGet gRook.board 56 = ChessPiece.none ∧
    boardGet gBish.board 63 = ChessPiece.none := by
  decide

/-- C5 (amended): when a castle move for a color/side shows up in
`find_moves` after a successful `apply_move`, none of the three squares
the King crosses is targeted by any move of the opponent's
legality-filtered list as first recomputed inside that same `apply_move`
(the code scans the legal lists, not the raw pseudo-legal sets). -/
theorem castle_requires_unattacked_path (g : ChessGame) (mv : ChessMove)
    (c : ChessColor) (q : Bool) (hs : (applyMove g mv).2 = true)
    (hm : mvCastle c q ∈ findMoves (applyMove g mv).1 c) :
    ∀ m ∈ colIdx c.opposite (attackListW g mv, attackListB g mv),
      m.target ∉ kingPath c q := by
  rw [applyMove_fst g mv hs] at hm
  cases c with
  | Wh =>
    cases q with
    | false =>
      have hflag := mem_findMoves_castle_k hm
      rw [Bool.and_eq_true] at hflag
      have h2 : colIdx ChessColor.Wh
          (applyMoveBody g mv).can_castle_now_k = true := hflag.2
      rw [applyMoveBody_cnk] at h2
      simp only [stageB] at h2
      rw [updateCastleNow_now_k] at h2
      simp only [colIdx] at h2
      rw [Bool.and_eq_true] at h2
      have hall := h2.2
      rw [stageA_next] at hall
      simp only [colIdx] at hall
      rw [List.all_eq_true] at hall
      intro m hmem
      simp only [ChessColor.opposite, colIdx] at hmem
      have h3 := hall m hmem
      clear hall hmem hm hflag h2 hs
      simp only [Bool.not_eq_true', Bool.or_eq_false_iff,
        beq_eq_false_iff_ne] at h3
      simp only [kingPath, List.mem_cons, List.not_mem_nil, or_false]
      omega
    | true =>
      have hflag := mem_findMoves_castle_q hm
      rw [Bool.and_eq_true] at hflag
      have h2 : colIdx ChessColor.Wh
          (applyMoveBody g mv).can_castle_now_q = true := hflag.2
      rw [applyMoveBody_cnq] at h2
      simp only [stageB] at h2
      rw [updateCastleNow_now_q] at h2
      simp only [colIdx] at h2
      rw [Bool.and_eq_true] at h2
      have hall := h2.2
      rw [stageA_next] at hall
      simp only [colIdx] at hall
      rw [List.all_eq_true] at hall
      intro m hmem
      simp only [ChessColor.opposite, colIdx] at hmem
      have h3 := hall m hmem
      clear hall hmem hm hflag h2 hs
      simp only [Bool.not_eq_true', Bool.or_eq_false_iff,
        beq_eq_false_iff_ne] at h3
      simp only [kingPath, List.mem_cons, List.not_mem_nil, or_false]
      omega
  | Bl =>
    cases q with
    | false =>
      have hflag := mem_findMoves_castle_k hm
      rw [Bool.and_eq_true] at hflag
      have h2 : colIdx ChessColor.Bl
          (applyMoveBody g mv).can_castle_now_k = true := hflag.2
      rw [applyMoveBody_cnk] at h2
      simp only [stageB] at h2
      rw [updateCastleNow_now_k] at h2
      simp only [colIdx] at h2
      rw [Bool.and_eq_true] at h2
      have hall := h2.2
      rw [stageA_next] at hall
      simp only [colIdx] at hall
      rw [List.all_eq_true] at hall
      intro m hmem
      simp only [ChessColor.opposite, colIdx] at hmem
      have h3 := hall m hmem
      clear hall hmem hm hflag h2 hs
      simp only [Bool.not_eq_true', Bool.or_eq_false_iff,
        beq_eq_false_iff_ne] at h3
      simp only [kingPath, List.mem_cons, List.not_mem_nil, or_false]
      omega
    | true =>
      have hflag := mem_findMoves_castle_q hm
      rw [Bool.and_eq_true] at hflag
      have h2 : colIdx ChessColor.Bl
          (applyMoveBody g mv).can_castle_now_q = true := hflag.2
      rw [applyMoveBody_cnq] at h2
      simp only [stageB] at h2
      rw [updateCastleNow_now_q] at h2
      simp only [colIdx] at h2
      rw [Bool.and_eq_true] at h2
      have hall := h2.2
      rw [stageA_next] at hall
      simp only [colIdx] at hall
      rw [List.all_eq_true] at hall
      intro m hmem
      simp only [ChessColor.opposite, colIdx] at hmem
      have h3 := hall m hmem
      clear hall hmem hm hflag h2 hs
      simp only [Bool.not_eq_true', Bool.or_eq_false_iff,
        beq_eq_false_iff_ne] at h3
      simp only [kingPath, List.mem_cons, List.not_mem_nil, or_false]
      omega

/-- C5 witness: in the pinned-bishop position White's kingside castle is
offered, and the theorem applies to the black king move b7-b8 of the
gating list. -/
theorem castle_requires_unattacked_path_case :
    (ChessMove.to (.K .Bl) 49 57).target ∉ kingPath .Wh false :=
  castle_requires_unattacked_path gPin mvNone00 .Wh false (by decide)
    (by decide) (ChessMove.to (.K .Bl) 49 57) (by decide)

/-- C5 counterexample: in the pinned-bishop position the kingside castle
for White is generated although the black bishop's pseudo-legal move set
targets e1 (square 4), one of the squares the King passes through - the
claim over pseudo-legal moves fails as stated. -/
theorem castle_offered_despite_pseudo_attack :
    mvCastle .Wh false ∈ findMoves (applyMove gPin mvNone00).1 .Wh ∧
    ((findMoves (applyMove gPin mvNone00).1 .Bl).any fun m =>
      m.target == 4 || m.target == 5 || m.target == 6) = true := by
  decide

/-- C9: the freshly created game has White to move and exactly twenty
cached legal moves for White: sixteen pawn moves and four knight moves. -/
theorem new_game_twenty_legal_moves :
    ChessGame.new.turn = ChessColor.Wh ∧
    (getLegalMoves ChessGame.new .Wh).length = 20 ∧
    ((getLegalMoves ChessGame.new .Wh).filter fun m =>
      m.piece.isPawn).length = 16 ∧
    ((getLegalMoves ChessGame.new .Wh).filter fun m =>
      m.piece.isKnight).length = 4 := by
  decide
